import Mathlib

/-
Verification development for the Batphone acoustic-fingerprinting pipeline
(src/Fingerprinter/Classes/Fingerprinter.cpp and Spectrogram.h).

The C++ code is shallowly embedded:
* machine floats are modelled exactly as rationals where a claim depends on
  IEEE rounding (the compile-time constants), and as elements of an abstract
  scalar carrier elsewhere, with the DSP black boxes (the FFT and the
  elementwise dB conversion) taken as parameters, exactly as the spec treats
  the transform ("assumed available as a black-box transform");
* buffers addressed by pointer arithmetic become total functions from indices;
* the audio-unit calls that can throw become boolean oracles and Except.
-/

namespace Batphone

/-! ## Exact model of IEEE round-to-nearest for the constant expressions

The compile-time constants of Fingerprinter.cpp (lines 28-35) mix unsigned
integer arithmetic with float and double arithmetic.  Finite binary floats
are exactly rationals, and +, *, / on IEEE floats are correctly rounded, so
each float operation is modelled as the exact rational operation followed by
rounding to the nearest value with a 24-bit (binary32) or 53-bit (binary64)
significand.  None of the roundings below hits a tie, so the tie-breaking
rule is irrelevant; `round` (ties upward) is used.  Exponent range is
unbounded: no constant here comes near overflow or the subnormal range. -/

/-- Round a positive rational to the nearest float with a p-bit significand:
values in [2^e, 2^(e+1)) are spaced 2^(e-p+1) apart. -/
def flPos (p : ℕ) (q : ℚ) : ℚ :=
  ((round (q / (2 : ℚ) ^ (Int.log 2 q - (p : ℤ) + 1)) : ℤ) : ℚ) *
    (2 : ℚ) ^ (Int.log 2 q - (p : ℤ) + 1)

/-- Round a rational to the nearest float with a p-bit significand
(p = 24 for binary32, p = 53 for binary64). -/
def fl (p : ℕ) (q : ℚ) : ℚ :=
  if q = 0 then 0 else if q < 0 then -flPos p (-q) else flPos p q

/-- Evaluation scheme for `fl` at a positive rational: supply the binary
exponent e and the rounded integer significand m, each certified by plain
rational inequalities. -/
theorem fl_eval (p : ℕ) (q : ℚ) (e m : ℤ)
    (h0 : 0 < q)
    (h1 : (2 : ℚ) ^ e ≤ q) (h2 : q < (2 : ℚ) ^ (e + 1))
    (h3 : (m : ℚ) ≤ q / (2 : ℚ) ^ (e - (p : ℤ) + 1) + 1 / 2)
    (h4 : q / (2 : ℚ) ^ (e - (p : ℤ) + 1) + 1 / 2 < m + 1) :
    fl p q = (m : ℚ) * (2 : ℚ) ^ (e - (p : ℤ) + 1) := by
  have hlog : Int.log 2 q = e := by
    have t1 := (Int.zpow_le_iff_le_log (b := 2) (by norm_num) h0).mp h1
    have t2 := (Int.lt_zpow_iff_log_lt (b := 2) (by norm_num) h0).mp h2
    omega
  unfold fl flPos
  rw [if_neg (ne_of_gt h0), if_neg (not_lt.mpr h0.le), hlog, round_eq,
    Int.floor_eq_iff.mpr ⟨h3, h4⟩]

/-! ## The compile-time constants (Fingerprinter.cpp lines 28-35) -/

/-- Fingerprinter::sampleRate (line 28). -/
def sampleRate : ℕ := 44100

/-- Fingerprinter::specRes, the transform length (line 29). -/
def specRes : ℕ := 1024

/-- Fingerprinter::windowOffset (line 30): the binary32 value of the literal
0.01f. -/
def windowOffset : ℚ := fl 24 (1 / 100)

/-- Fingerprinter::accumulationNum (line 31). -/
def accumulationNum : ℕ := 10

/-- Fingerprinter::historyTime in seconds (line 32). -/
def historyTime : ℕ := 10

/-- Fingerprinter::historyCount (line 33), computed exactly as the code
associates it: unsigned division historyTime / accumulationNum first, then a
correctly rounded binary32 division by windowOffset, then truncation to
unsigned. -/
def historyCountSrc : ℕ :=
  (⌊fl 24 (((historyTime / accumulationNum : ℕ) : ℚ) / windowOffset)⌋).toNat

/-- The value of historyCountSrc (theorem historyCountSrc_eq); the literal is
used downstream so that kernel reduction never has to replay the rational
rounding arithmetic. -/
def historyCount : ℕ := 100

/-- Fingerprinter::freqCutoff (line 34): 7000.0f is exactly representable. -/
def freqCutoff : ℚ := 7000

/-- Fingerprinter::fpLength (line 35): specRes * freqCutoff is a binary32
product (exact, 7168000), divided by the double literal 22050.0 in binary64,
then truncated to unsigned. -/
def fpLengthSrc : ℕ :=
  (⌊fl 53 (fl 24 ((specRes : ℚ) * freqCutoff) / 22050)⌋).toNat

/-- The value of fpLengthSrc (theorem fpLengthSrc_eq); the literal is used
downstream so that kernel reduction never has to replay the rational
rounding arithmetic. -/
def fpLength : ℕ := 325

/-- The hop between overlapping analysis windows (line 131):
int stepSize = floor(windowOffset * sampleRate), a binary32 product passed
through floor. -/
def stepSizeSrc : ℤ := ⌊fl 24 (windowOffset * (sampleRate : ℚ))⌋

/-- The value of stepSizeSrc (theorem stepSizeSrc_eq); the literal is used
downstream so that kernel reduction never has to replay the rational
rounding arithmetic. -/
def stepSize : ℤ := 441

/-- The frame buffer capacity chosen at setup (line 290):
0.5 * sampleRate = 22050.0 exactly, truncated to unsigned. -/
def fbLen0 : ℕ := 22050

theorem windowOffset_val : windowOffset = 10737418 / 1073741824 := by
  unfold windowOffset
  rw [fl_eval 24 (1 / 100) (-7) 10737418 (by norm_num) (by norm_num)
    (by norm_num) (by norm_num) (by norm_num)]
  norm_num

theorem stepSizeSrc_eq : stepSizeSrc = 441 := by
  unfold stepSizeSrc
  rw [windowOffset_val, sampleRate,
    fl_eval 24 ((10737418 / 1073741824 : ℚ) * (44100 : ℕ)) 8 14450688
      (by norm_num) (by norm_num) (by norm_num) (by norm_num) (by norm_num)]
  exact Int.floor_eq_iff.mpr (by norm_num)

theorem fpLengthSrc_eq : fpLengthSrc = 325 := by
  unfold fpLengthSrc
  rw [specRes, freqCutoff,
    fl_eval 24 ((1024 : ℕ) * (7000 : ℚ)) 22 14336000
      (by norm_num) (by norm_num) (by norm_num) (by norm_num) (by norm_num)]
  rw [show ((14336000 : ℤ) : ℚ) * (2 : ℚ) ^ ((22 : ℤ) - (24 : ℕ) + 1) / 22050
        = 7168000 / 22050 by norm_num]
  rw [fl_eval 53 ((7168000 : ℚ) / 22050) 8 5718856669676820
    (by norm_num) (by norm_num) (by norm_num) (by norm_num) (by norm_num)]
  rw [show ⌊((5718856669676820 : ℤ) : ℚ) * (2 : ℚ) ^ ((8 : ℤ) - ((53 : ℕ) : ℤ) + 1)⌋
        = (325 : ℤ) from Int.floor_eq_iff.mpr (by norm_num)]
  rfl

theorem historyCountSrc_eq : historyCountSrc = 100 := by
  unfold historyCountSrc
  rw [windowOffset_val, historyTime, accumulationNum]
  rw [show (((10 / 10 : ℕ) : ℚ) / (10737418 / 1073741824))
        = 1073741824 / 10737418 by norm_num]
  rw [fl_eval 24 ((1073741824 : ℚ) / 10737418) 6 13107200
    (by norm_num) (by norm_num) (by norm_num) (by norm_num) (by norm_num)]
  rw [show ⌊((13107200 : ℤ) : ℚ) * (2 : ℚ) ^ ((6 : ℤ) - ((24 : ℕ) : ℤ) + 1)⌋
        = (100 : ℤ) from Int.floor_eq_iff.mpr (by norm_num)]
  rfl

theorem stepSize_eq : stepSize = 441 := rfl

/-! ## Scalar operations

The audio path computes on IEEE binary32 values.  Control-flow claims do not
depend on the numeric details of float arithmetic, so the per-element
operations are bundled in a record over an abstract carrier: the actual
float semantics (including the FFT, which the spec itself treats as a
black-box transform, and vDSP_vdbcon, whose output may be NaN) is one
instantiation, and every control theorem below is proved for all
instantiations.  `le`/`ge` return Bool with IEEE semantics: any comparison
involving NaN is false. -/

structure FloatOps (α : Type) where
  zero : α
  ofNat : ℕ → α
  add : α → α → α
  mul : α → α → α
  le : α → α → Bool
  ge : α → α → Bool
  db : α → α → α

/-- Float values for control-flow counterexamples: an exact value (floats
are exact rationals; integer payloads suffice for the inputs used) or NaN.
NaN propagates through arithmetic and makes every comparison false. -/
inductive FV where
  | fin : ℤ → FV
  | nan : FV
deriving DecidableEq

def FV.addv : FV → FV → FV
  | FV.fin a, FV.fin b => FV.fin (a + b)
  | _, _ => FV.nan

def FV.mulv : FV → FV → FV
  | FV.fin a, FV.fin b => FV.fin (a * b)
  | _, _ => FV.nan

def FV.lev : FV → FV → Bool
  | FV.fin a, FV.fin b => decide (a ≤ b)
  | _, _ => false

/-- Exact-integer instantiation used for concrete runs of the control model
(db is an arbitrary placeholder: the control theorems hold for every db). -/
def IntOps : FloatOps ℤ where
  zero := 0
  ofNat := fun n => (n : ℤ)
  add := fun a b => a + b
  mul := fun a b => a * b
  le := fun a b => decide (a ≤ b)
  ge := fun a b => decide (b ≤ a)
  db := fun _ x => x

/-- FV instantiation with NaN-propagating arithmetic and IEEE comparisons. -/
def FVOps : FloatOps FV where
  zero := FV.fin 0
  ofNat := fun n => FV.fin (n : ℤ)
  add := FV.addv
  mul := FV.mulv
  le := FV.lev
  ge := fun a b => FV.lev b a
  db := fun _ x => x

/-- FV instantiation whose dB conversion models exactly the NaN-ness of
float vDSP_vdbcon: the logarithm of a nonpositive value is not a finite
number (NaN for negative input; -inf, conflated here, for zero), while a
positive input maps to a placeholder finite value - the control claims
never depend on the finite dB values. -/
def FVOpsNan : FloatOps FV :=
  { FVOps with
    db := fun _ x => match x with
      | FV.fin q => if q ≤ 0 then FV.nan else FV.fin q
      | FV.nan => FV.nan }

/-! ## Spectrogram History

Spectrogram.h declares update/getSummary, but Spectrogram.cpp and
SlidingWindow are not part of the sources, so the data structure is
modelled from the spec. -/

/-- Modelled from the spec: missing Spectrogram.cpp / SlidingWindow.
Per frequency bin, a bounded FIFO of depth timeBins of past dB values
(spec section 3, SlidingWindow; lists are kept oldest first). -/
structure Spectrogram (α : Type) where
  bins : ℤ → List α
  freqBins : ℕ
  timeBins : ℕ

def insertLe {α : Type} (le : α → α → Bool) (x : α) : List α → List α
  | [] => [x]
  | y :: ys => if le x y then x :: y :: ys else y :: insertLe le x ys

def sortLe {α : Type} (le : α → α → Bool) (l : List α) : List α :=
  l.foldr (insertLe le) []

/-- Modelled from the spec: missing Spectrogram.cpp / SlidingWindow.
Nearest-rank 5th percentile of a bin history (spec section 4.4): sort
ascending, take rank ceil(0.05 * count), 1-indexed; 0 for an empty
history (spec section 8 leaves the empty case as a fixed deterministic
choice). -/
def percentile5 {α : Type} (ops : FloatOps α) (l : List α) : α :=
  if l.length = 0 then ops.zero
  else (sortLe ops.le l).getD ((5 * l.length + 99) / 100 - 1) ops.zero

/-- Modelled from the spec: missing Spectrogram.cpp / SlidingWindow.
update pushes spectrum[i] into sliding window i for every bin, evicting
the oldest value when the window is at capacity (spec section 4.4). -/
def spectrogramUpdate {α : Type} (s : Spectrogram α) (v : ℤ → α) : Spectrogram α :=
  { s with
    bins := fun i =>
      if 0 ≤ i ∧ i < (s.freqBins : ℤ) then
        if s.timeBins ≤ (s.bins i).length then (s.bins i).tail ++ [v i]
        else s.bins i ++ [v i]
      else s.bins i }

/-- Modelled from the spec: missing Spectrogram.cpp / SlidingWindow.
getSummary writes the per-bin percentile into the caller-supplied buffer
(spec section 4.4). -/
def getSummaryInto {α : Type} (ops : FloatOps α) (s : Spectrogram α)
    (outBuf : ℤ → α) : ℤ → α :=
  fun i => if 0 ≤ i ∧ i < (s.freqBins : ℤ) then percentile5 ops (s.bins i) else outBuf i

/-! ## The callback state (CallbackData, Fingerprinter.cpp lines 44-61)

Buffers become total functions from pointer offsets; cursors stay signed
ints as in the source.  lockHeld tracks the pthread mutex referenced by
cd->lock.  nanExited, winTrace and emitTrace are observation-only ghost
fields: nanExited records that the NaN early return (line 163) was taken,
winTrace records the start position of every analysis window processed,
and emitTrace records every accumulated spectrum handed to the
spectrogram; no other field depends on them. -/

structure CallbackData (α : Type) where
  fingerprint : ℤ → α
  spectrogram : Spectrogram α
  acc : ℤ → α
  accCount : ℤ
  frameBuffer : ℤ → α
  fbIndex : ℤ
  startIndex : ℤ
  fbLen : ℕ
  A : ℤ → α
  hamm : ℤ → α
  complRe : ℤ → α
  complIm : ℤ → α
  lockHeld : Bool
  nanExited : Bool
  winTrace : List ℤ
  emitTrace : List (ℤ → α)

/-! ## One analysis window (loop body, lines 133-177)

The fft is a parameter (fftRe, fftIm give the real and imaginary parts of
the in-place vDSP_fft_zip as functions of the packed input halves). -/

/-- Lines 134-137: memcpy the window at startIndex into scratch A, then
multiply elementwise by the Hamming window.  Only the first specRes floats
of A are written; the upper half keeps its previous scratch contents. -/
def windowA1 {α : Type} (ops : FloatOps α) (cd : CallbackData α) : ℤ → α :=
  fun i => if 0 ≤ i ∧ i < (specRes : ℤ) then
    ops.mul (cd.frameBuffer (cd.startIndex + i)) (cd.hamm i) else cd.A i

/-- Line 142, vDSP_ctoz with stride 2 and count specRes: real parts are the
even-index floats of A.  For k at and above specRes / 2 this reads the
never-written upper half of A, faithfully to the source. -/
def windowRe1 {α : Type} (ops : FloatOps α) (cd : CallbackData α) : ℤ → α :=
  fun k => if 0 ≤ k ∧ k < (specRes : ℤ) then windowA1 ops cd (2 * k) else cd.complRe k

/-- Line 142: imaginary parts are the odd-index floats of A. -/
def windowIm1 {α : Type} (ops : FloatOps α) (cd : CallbackData α) : ℤ → α :=
  fun k => if 0 ≤ k ∧ k < (specRes : ℤ) then windowA1 ops cd (2 * k + 1) else cd.complIm k

/-- Line 143, vDSP_fft_zip: in-place black-box transform of the first
specRes split-complex entries. -/
def windowRe2 {α : Type} (ops : FloatOps α)
    (fftRe fftIm : (ℤ → α) → (ℤ → α) → ℤ → α) (cd : CallbackData α) : ℤ → α :=
  fun k => if 0 ≤ k ∧ k < (specRes : ℤ) then
    fftRe (windowRe1 ops cd) (windowIm1 ops cd) k else windowRe1 ops cd k

def windowIm2 {α : Type} (ops : FloatOps α)
    (fftRe fftIm : (ℤ → α) → (ℤ → α) → ℤ → α) (cd : CallbackData α) : ℤ → α :=
  fun k => if 0 ≤ k ∧ k < (specRes : ℤ) then
    fftIm (windowRe1 ops cd) (windowIm1 ops cd) k else windowIm1 ops cd k

/-- Line 147, vDSP_zaspec: power spectrum re^2 + im^2 written over the
first specRes floats of A. -/
def windowPower {α : Type} (ops : FloatOps α)
    (fftRe fftIm : (ℤ → α) → (ℤ → α) → ℤ → α) (cd : CallbackData α) : ℤ → α :=
  fun k => if 0 ≤ k ∧ k < (specRes : ℤ) then
    ops.add (ops.mul (windowRe2 ops fftRe fftIm cd k) (windowRe2 ops fftRe fftIm cd k))
      (ops.mul (windowIm2 ops fftRe fftIm cd k) (windowIm2 ops fftRe fftIm cd k))
  else windowA1 ops cd k

/-- Line 150, vDSP_vadd over fpLength elements: only the first fpLength
power bins are accumulated. -/
def accPlus {α : Type} (ops : FloatOps α)
    (fftRe fftIm : (ℤ → α) → (ℤ → α) → ℤ → α) (cd : CallbackData α) : ℤ → α :=
  fun i => if 0 ≤ i ∧ i < (fpLength : ℤ) then
    ops.add (windowPower ops fftRe fftIm cd i) (cd.acc i) else cd.acc i

/-- Lines 156-157, vDSP_vdbcon with reference 1.0f * accumulationNum and
the power flag, applied to the first fpLength accumulator entries. -/
def accDbFun {α : Type} (ops : FloatOps α)
    (fftRe fftIm : (ℤ → α) → (ℤ → α) → ℤ → α) (cd : CallbackData α) : ℤ → α :=
  fun i => if 0 ≤ i ∧ i < (fpLength : ℤ) then
    ops.db (ops.ofNat accumulationNum) (accPlus ops fftRe fftIm cd i)
  else accPlus ops fftRe fftIm cd i

/-- Line 160, the validity guard: acc[0] is NaN exactly when it is neither
at least 0 nor at most 0. -/
def nanDetected {α : Type} (ops : FloatOps α)
    (fftRe fftIm : (ℤ → α) → (ℤ → α) → ℤ → α) (cd : CallbackData α) : Bool :=
  !(ops.ge (accDbFun ops fftRe fftIm cd 0) ops.zero
    || ops.le (accDbFun ops fftRe fftIm cd 0) ops.zero)

/-- One iteration of the analysis loop (lines 133-177).  The Bool result is
false exactly when the NaN early return (line 163) leaves the whole
callback. -/
def processWindow {α : Type} (ops : FloatOps α)
    (fftRe fftIm : (ℤ → α) → (ℤ → α) → ℤ → α) (cd : CallbackData α) :
    CallbackData α × Bool :=
  let cd1 : CallbackData α :=
    { cd with
      A := windowPower ops fftRe fftIm cd
      complRe := windowRe2 ops fftRe fftIm cd
      complIm := windowIm2 ops fftRe fftIm cd
      acc := accPlus ops fftRe fftIm cd
      accCount := cd.accCount + 1
      winTrace := cd.winTrace ++ [cd.startIndex] }
  if (accumulationNum : ℤ) ≤ cd1.accCount then
    let cd2 : CallbackData α :=
      { cd1 with lockHeld := true, acc := accDbFun ops fftRe fftIm cd }
    if nanDetected ops fftRe fftIm cd then
      ({ cd2 with lockHeld := false, nanExited := true }, false)
    else
      let sp := spectrogramUpdate cd2.spectrogram (accDbFun ops fftRe fftIm cd)
      let cd3 : CallbackData α :=
        { cd2 with
          spectrogram := sp
          fingerprint := getSummaryInto ops sp cd2.fingerprint
          lockHeld := false
          emitTrace := cd2.emitTrace ++ [accDbFun ops fftRe fftIm cd] }
      ({ cd3 with
          acc := fun i => if 0 ≤ i ∧ i < (fpLength : ℤ) then ops.zero
            else accDbFun ops fftRe fftIm cd i
          accCount := 0 }, true)
  else (cd1, true)

/-! ## The analysis loop (lines 130-132) and the callback -/

/-- The for loop of lines 130-178, with explicit fuel so the recursion is
structural.  Each iteration requires startIndex at most fbIndex - specRes
and advances startIndex by stepSize = 441, so the iteration count is
strictly below fbIndex + 1 - startIndex; `windowLoop` supplies that fuel,
making the fuelled function extensionally the C loop. -/
def windowLoopF {α : Type} (ops : FloatOps α)
    (fftRe fftIm : (ℤ → α) → (ℤ → α) → ℤ → α) :
    ℕ → CallbackData α → CallbackData α
  | 0, cd => cd
  | fuel + 1, cd =>
    if cd.startIndex ≤ cd.fbIndex - (specRes : ℤ) then
      let p := processWindow ops fftRe fftIm cd
      if p.2 then
        windowLoopF ops fftRe fftIm fuel { p.1 with startIndex := p.1.startIndex + stepSize }
      else p.1
    else cd

/-- The analysis loop of lines 130-178: the fuel bound
(fbIndex + 1 - startIndex) / stepSize + 1 strictly exceeds the number of
iterations the C loop can perform. -/
def windowLoop {α : Type} (ops : FloatOps α)
    (fftRe fftIm : (ℤ → α) → (ℤ → α) → ℤ → α) (cd : CallbackData α) :
    CallbackData α :=
  windowLoopF ops fftRe fftIm ((cd.fbIndex + 1 - cd.startIndex) / stepSize + 1).toNat cd

/-- Lines 108-114, exactly as the source writes them: the condition
fbIndex at least fbLen - inNumberFrames, then
memcpy(frameBuffer + fbLen/2, frameBuffer, sizeof(float)*fbLen/2) - whose
destination is the second half and source the first half, so the first
half of the buffer is copied over the second half - then both cursors are
decremented by fbLen/2.  (The unsigned C comparison agrees with this ℤ
comparison whenever 0 ≤ fbIndex and n ≤ fbLen, which holds in every run.) -/
def shiftCompact {α : Type} (cd : CallbackData α) : CallbackData α :=
  { cd with
    frameBuffer := fun i =>
      if (cd.fbLen : ℤ) / 2 ≤ i ∧ i < (cd.fbLen : ℤ) then
        cd.frameBuffer (i - (cd.fbLen : ℤ) / 2)
      else cd.frameBuffer i
    fbIndex := cd.fbIndex - (cd.fbLen : ℤ) / 2
    startIndex := cd.startIndex - (cd.fbLen : ℤ) / 2 }

/-- The audio callback (lines 73-181).  renderFails models the
AudioUnitRender exception path (lines 87-95, returning status 1);
samples are the inNumberFrames new samples already converted to the
scalar carrier (vDSP_vflt32, line 117, converts exactly for microphone
samples); the zero fill of the caller-owned output buffer (lines 123-125)
touches no CallbackData state and is not represented.  An oversized n
only logs (lines 80-82) and processing continues, as in the source. -/
def callback {α : Type} (ops : FloatOps α)
    (fftRe fftIm : (ℤ → α) → (ℤ → α) → ℤ → α) (cd : CallbackData α)
    (renderFails : Bool) (n : ℕ) (samples : ℤ → α) : CallbackData α × ℤ :=
  if renderFails then (cd, 1)
  else
    let cd1 := if (cd.fbLen : ℤ) - (n : ℤ) ≤ cd.fbIndex then shiftCompact cd else cd
    let cd2 : CallbackData α :=
      { cd1 with
        frameBuffer := fun i =>
          if cd1.fbIndex ≤ i ∧ i < cd1.fbIndex + (n : ℤ) then samples (i - cd1.fbIndex)
          else cd1.frameBuffer i
        fbIndex := cd1.fbIndex + (n : ℤ) }
    if cd2.fbIndex < (specRes : ℤ) then (cd2, 0)
    else (windowLoop ops fftRe fftIm cd2, 0)

/-! ## The Fingerprinter object (lines 349-459) -/

structure FingerprinterState (α : Type) where
  unitIsRunning : Bool
  cd : CallbackData α

/-- The constructor (lines 349-392) together with the CallbackData setup in
setupRemoteIO (lines 274-295): running flag false, fingerprint zero filled
over fpLength entries, empty spectrogram of fpLength bins and depth
historyCount, zero accumulator and count, cursors zero, fbLen 22050, lock
free.  mem supplies the contents of the freshly allocated (uninitialized)
buffers A, compl_buf and frameBuffer and the vDSP_hamm_window output hamm
(a precomputed black box). -/
def mkFingerprinter {α : Type} (ops : FloatOps α) (mem : CallbackData α) :
    FingerprinterState α :=
  { unitIsRunning := false
    cd := { mem with
      fingerprint := fun i => if 0 ≤ i ∧ i < (fpLength : ℤ) then ops.zero else mem.fingerprint i
      spectrogram := { bins := fun _ => [], freqBins := fpLength, timeBins := historyCount }
      acc := fun i => if 0 ≤ i ∧ i < (fpLength : ℤ) then ops.zero else mem.acc i
      accCount := 0
      fbIndex := 0
      startIndex := 0
      fbLen := fbLen0
      lockHeld := false
      nanExited := false
      winTrace := []
      emitTrace := [] } }

/-- Fingerprinter::getFingerprint (lines 395-403): if the unit is running,
copy fpLength floats of the stored fingerprint into the caller buffer under
the lock and return true; otherwise return false leaving the buffer
untouched.  The lock is acquired and released inside the call, so the
sequential model leaves it as found; the interleaved lock model below
covers the concurrent behaviour. -/
def getFingerprint {α : Type} (s : FingerprinterState α) (outBuf : ℤ → α) :
    Bool × (ℤ → α) :=
  if s.unitIsRunning then
    (true, fun i => if 0 ≤ i ∧ i < (fpLength : ℤ) then s.cd.fingerprint i else outBuf i)
  else (false, outBuf)

/-- Fingerprinter::startRecording (lines 422-449).  The three XThrowIfError
sites become two oracles (start, and the two property queries combined);
exceptions propagate out of the function, hence the Except result.
reportsRunning is the kAudioOutputUnitProperty_IsRunning value; only when
it is nonzero is unitIsRunning set.  The function returns the final
unitIsRunning. -/
def startRecording {α : Type} (s : FingerprinterState α)
    (auStartThrows auQueryThrows reportsRunning : Bool) :
    Except Unit (Bool × FingerprinterState α) :=
  if s.unitIsRunning then Except.ok (true, s)
  else if auStartThrows then Except.error ()
  else if auQueryThrows then Except.error ()
  else if reportsRunning then Except.ok (true, { s with unitIsRunning := true })
  else Except.ok (false, s)

/-- Fingerprinter::stopRecording (lines 452-459): while running, stop the
unit (which may throw) and clear the flag; the function returns the final
unitIsRunning, hence false on both paths that return normally. -/
def stopRecording {α : Type} (s : FingerprinterState α) (auStopThrows : Bool) :
    Except Unit (Bool × FingerprinterState α) :=
  if s.unitIsRunning then
    if auStopThrows then Except.error ()
    else Except.ok (false, { s with unitIsRunning := false })
  else Except.ok (false, s)

/-! ## Shape lemmas for processWindow -/

theorem processWindow_startIndex {α : Type} (ops : FloatOps α)
    (fftRe fftIm : (ℤ → α) → (ℤ → α) → ℤ → α) (cd : CallbackData α) :
    (processWindow ops fftRe fftIm cd).1.startIndex = cd.startIndex := by
  simp only [processWindow]
  split_ifs <;> rfl

theorem processWindow_fbIndex {α : Type} (ops : FloatOps α)
    (fftRe fftIm : (ℤ → α) → (ℤ → α) → ℤ → α) (cd : CallbackData α) :
    (processWindow ops fftRe fftIm cd).1.fbIndex = cd.fbIndex := by
  simp only [processWindow]
  split_ifs <;> rfl

theorem processWindow_winTrace {α : Type} (ops : FloatOps α)
    (fftRe fftIm : (ℤ → α) → (ℤ → α) → ℤ → α) (cd : CallbackData α) :
    (processWindow ops fftRe fftIm cd).1.winTrace = cd.winTrace ++ [cd.startIndex] := by
  simp only [processWindow]
  split_ifs <;> rfl

theorem processWindow_lockHeld {α : Type} (ops : FloatOps α)
    (fftRe fftIm : (ℤ → α) → (ℤ → α) → ℤ → α) (cd : CallbackData α)
    (h : cd.lockHeld = false) :
    (processWindow ops fftRe fftIm cd).1.lockHeld = false := by
  simp only [processWindow]
  split_ifs <;> simp [h]

theorem processWindow_cont_nanExited {α : Type} (ops : FloatOps α)
    (fftRe fftIm : (ℤ → α) → (ℤ → α) → ℤ → α) (cd : CallbackData α)
    (h : (processWindow ops fftRe fftIm cd).2 = true) :
    (processWindow ops fftRe fftIm cd).1.nanExited = cd.nanExited := by
  simp only [processWindow] at h ⊢
  split_ifs at h ⊢ <;> simp_all

theorem processWindow_stop_nanExited {α : Type} (ops : FloatOps α)
    (fftRe fftIm : (ℤ → α) → (ℤ → α) → ℤ → α) (cd : CallbackData α)
    (h : (processWindow ops fftRe fftIm cd).2 = false) :
    (processWindow ops fftRe fftIm cd).1.nanExited = true := by
  simp only [processWindow] at h ⊢
  split_ifs at h ⊢ <;> simp_all

/-! ## Arithmetic description of the processed window positions -/

/-- Number of analysis windows with start positions s, s + stepSize, ...
not exceeding bound. -/
def posCount (s bound : ℤ) : ℕ :=
  if s ≤ bound then ((bound - s) / stepSize).toNat + 1 else 0

/-- The start positions s, s + stepSize, ... not exceeding bound. -/
def posArr (s bound : ℤ) : List ℤ :=
  List.map (fun k : ℕ => s + (k : ℤ) * stepSize) (List.range (posCount s bound))

theorem posArr_nil (s bound : ℤ) (h : ¬ s ≤ bound) : posArr s bound = [] := by
  simp [posArr, posCount, h]

theorem posCount_succ (s bound : ℤ) (h : s ≤ bound) :
    posCount s bound = posCount (s + stepSize) bound + 1 := by
  simp only [posCount, stepSize_eq]
  split_ifs with h2 <;> omega

theorem posArr_cons (s bound : ℤ) (h : s ≤ bound) :
    posArr s bound = s :: posArr (s + stepSize) bound := by
  unfold posArr
  rw [posCount_succ s bound h, List.range_succ_eq_map, List.map_cons, List.map_map]
  refine congrArg₂ List.cons (by simp) ?_
  refine List.map_congr_left ?_
  intro k _
  simp only [Function.comp_apply]
  push_cast
  ring

theorem posArr_self (s : ℤ) : posArr s s = [s] := by
  rw [posArr_cons s s le_rfl, posArr_nil]
  rw [stepSize_eq]
  omega

/-! ## Behaviour of the analysis loop -/

/-- Full characterization of the loop, by induction on the fuel (the
hypothesis says the fuel is at least the entry measure, which `windowLoop`
satisfies by construction).  Starting outside the NaN-exited state:
if the loop finishes normally it has processed exactly the windows at
startIndex, startIndex + stepSize, ... up to fbIndex - specRes, advancing
startIndex past the last; if it ended on the NaN early return it has
processed exactly the windows up to the final startIndex, which is a
window position not past fbIndex - specRes (not advanced past the NaN
window). -/
theorem windowLoopF_spec {α : Type} (ops : FloatOps α)
    (fftRe fftIm : (ℤ → α) → (ℤ → α) → ℤ → α) :
    ∀ (fuel : ℕ) (cd : CallbackData α),
      ((cd.fbIndex + 1 - cd.startIndex) / stepSize + 1).toNat ≤ fuel →
      cd.nanExited = false →
      (windowLoopF ops fftRe fftIm fuel cd).fbIndex = cd.fbIndex ∧
      ((windowLoopF ops fftRe fftIm fuel cd).nanExited = false →
        (windowLoopF ops fftRe fftIm fuel cd).winTrace
            = cd.winTrace ++ posArr cd.startIndex (cd.fbIndex - (specRes : ℤ)) ∧
        (windowLoopF ops fftRe fftIm fuel cd).startIndex
            = cd.startIndex
              + (posCount cd.startIndex (cd.fbIndex - (specRes : ℤ)) : ℤ) * stepSize ∧
        ¬ (windowLoopF ops fftRe fftIm fuel cd).startIndex ≤ cd.fbIndex - (specRes : ℤ)) ∧
      ((windowLoopF ops fftRe fftIm fuel cd).nanExited = true →
        cd.startIndex ≤ (windowLoopF ops fftRe fftIm fuel cd).startIndex ∧
        (windowLoopF ops fftRe fftIm fuel cd).startIndex ≤ cd.fbIndex - (specRes : ℤ) ∧
        (windowLoopF ops fftRe fftIm fuel cd).winTrace
            = cd.winTrace
              ++ posArr cd.startIndex (windowLoopF ops fftRe fftIm fuel cd).startIndex) := by
  intro fuel
  induction fuel with
  | zero =>
    intro cd hf hn
    rw [stepSize_eq] at hf
    have hc : ¬ cd.startIndex ≤ cd.fbIndex - (specRes : ℤ) := by
      simp only [specRes]
      omega
    rw [show windowLoopF ops fftRe fftIm 0 cd = cd from rfl]
    refine ⟨rfl, ?_, ?_⟩
    · intro _
      refine ⟨?_, ?_, hc⟩
      · rw [posArr_nil _ _ hc, List.append_nil]
      · simp [posCount, hc]
    · intro hx
      rw [hn] at hx
      exact absurd hx (by simp)
  | succ n ih =>
    intro cd hf hn
    simp only [windowLoopF]
    by_cases hc : cd.startIndex ≤ cd.fbIndex - (specRes : ℤ)
    · rw [if_pos hc]
      by_cases hcont : (processWindow ops fftRe fftIm cd).2 = true
      · rw [if_pos hcont]
        set cd1 : CallbackData α :=
          { (processWindow ops fftRe fftIm cd).1 with
            startIndex := (processWindow ops fftRe fftIm cd).1.startIndex + stepSize }
        have hfb1 : cd1.fbIndex = cd.fbIndex := processWindow_fbIndex ops fftRe fftIm cd
        have hst1 : cd1.startIndex = cd.startIndex + stepSize := by
          rw [show cd1.startIndex
              = (processWindow ops fftRe fftIm cd).1.startIndex + stepSize from rfl,
            processWindow_startIndex]
        have htr1 : cd1.winTrace = cd.winTrace ++ [cd.startIndex] :=
          processWindow_winTrace ops fftRe fftIm cd
        have hn1 : cd1.nanExited = false := by
          rw [show cd1.nanExited = (processWindow ops fftRe fftIm cd).1.nanExited from rfl,
            processWindow_cont_nanExited ops fftRe fftIm cd hcont]
          exact hn
        have hf1 : ((cd1.fbIndex + 1 - cd1.startIndex) / stepSize + 1).toNat ≤ n := by
          rw [hfb1, hst1, stepSize_eq]
          rw [stepSize_eq] at hf
          simp only [specRes] at hc
          omega
        obtain ⟨ihFb, ihOk, ihNan⟩ := ih cd1 hf1 hn1
        refine ⟨by rw [ihFb, hfb1], ?_, ?_⟩
        · intro hno
          obtain ⟨w, st, nc⟩ := ihOk hno
          refine ⟨?_, ?_, ?_⟩
          · rw [w, htr1, hst1, hfb1, List.append_assoc, List.singleton_append,
              ← posArr_cons _ _ hc]
          · rw [st, hst1, hfb1, posCount_succ _ _ hc]
            push_cast
            ring
          · rw [hfb1] at nc
            exact nc
        · intro hna
          obtain ⟨lo, hi, w⟩ := ihNan hna
          rw [hst1] at lo
          rw [hfb1] at hi
          have hsr : cd.startIndex ≤ (windowLoopF ops fftRe fftIm n cd1).startIndex := by
            rw [stepSize_eq] at lo
            omega
          refine ⟨hsr, hi, ?_⟩
          rw [w, htr1, hst1, List.append_assoc, List.singleton_append,
            ← posArr_cons _ _ hsr]
      · have hcf : (processWindow ops fftRe fftIm cd).2 = false := by
          simpa using hcont
        rw [if_neg hcont]
        have hx := processWindow_stop_nanExited ops fftRe fftIm cd hcf
        refine ⟨processWindow_fbIndex ops fftRe fftIm cd, ?_, ?_⟩
        · intro hno
          rw [hx] at hno
          exact absurd hno (by simp)
        · intro _
          rw [processWindow_startIndex ops fftRe fftIm cd,
            processWindow_winTrace ops fftRe fftIm cd, posArr_self]
          exact ⟨le_rfl, hc, rfl⟩
    · rw [if_neg hc]
      refine ⟨rfl, ?_, ?_⟩
      · intro _
        refine ⟨?_, ?_, hc⟩
        · rw [posArr_nil _ _ hc, List.append_nil]
        · simp [posCount, hc]
      · intro hx
        rw [hn] at hx
        exact absurd hx (by simp)

/-- The loop never leaves the fingerprint lock held. -/
theorem windowLoopF_lockHeld {α : Type} (ops : FloatOps α)
    (fftRe fftIm : (ℤ → α) → (ℤ → α) → ℤ → α) :
    ∀ (fuel : ℕ) (cd : CallbackData α), cd.lockHeld = false →
      (windowLoopF ops fftRe fftIm fuel cd).lockHeld = false := by
  intro fuel
  induction fuel with
  | zero =>
    intro cd h
    simpa only [windowLoopF] using h
  | succ n ih =>
    intro cd h
    simp only [windowLoopF]
    by_cases hc : cd.startIndex ≤ cd.fbIndex - (specRes : ℤ)
    · rw [if_pos hc]
      by_cases hcont : (processWindow ops fftRe fftIm cd).2 = true
      · rw [if_pos hcont]
        exact ih _ (processWindow_lockHeld ops fftRe fftIm cd h)
      · rw [if_neg hcont]
        exact processWindow_lockHeld ops fftRe fftIm cd h
    · rw [if_neg hc]
      exact h


/-- Above the iteration bound the fuel is irrelevant: the fuelled loop is
extensionally the C for loop. -/
theorem windowLoopF_fuel_irrelevant {α : Type} (ops : FloatOps α)
    (fftRe fftIm : (ℤ → α) → (ℤ → α) → ℤ → α) :
    ∀ (fuel fuel' : ℕ) (cd : CallbackData α),
      ((cd.fbIndex + 1 - cd.startIndex) / stepSize + 1).toNat ≤ fuel →
      ((cd.fbIndex + 1 - cd.startIndex) / stepSize + 1).toNat ≤ fuel' →
      windowLoopF ops fftRe fftIm fuel cd = windowLoopF ops fftRe fftIm fuel' cd := by
  intro fuel
  induction fuel with
  | zero =>
    intro fuel' cd h h'
    have hc : ¬ cd.startIndex ≤ cd.fbIndex - (specRes : ℤ) := by
      rw [stepSize_eq] at h
      simp only [specRes]
      omega
    cases fuel' with
    | zero => rfl
    | succ m => simp only [windowLoopF, if_neg hc]
  | succ n ih =>
    intro fuel' cd h h'
    by_cases hc : cd.startIndex ≤ cd.fbIndex - (specRes : ℤ)
    · cases fuel' with
      | zero =>
        exfalso
        rw [stepSize_eq] at h'
        simp only [specRes] at hc
        omega
      | succ m =>
        simp only [windowLoopF, if_pos hc]
        by_cases hcont : (processWindow ops fftRe fftIm cd).2 = true
        · rw [if_pos hcont, if_pos hcont]
          have hstep : (((({ (processWindow ops fftRe fftIm cd).1 with
              startIndex := (processWindow ops fftRe fftIm cd).1.startIndex + stepSize } :
                CallbackData α).fbIndex + 1
              - ({ (processWindow ops fftRe fftIm cd).1 with
                  startIndex := (processWindow ops fftRe fftIm cd).1.startIndex + stepSize } :
                    CallbackData α).startIndex) / stepSize + 1)).toNat
              = (((cd.fbIndex + 1 - (cd.startIndex + stepSize)) / stepSize + 1)).toNat := by
            rw [show ({ (processWindow ops fftRe fftIm cd).1 with
                startIndex := (processWindow ops fftRe fftIm cd).1.startIndex + stepSize } :
                  CallbackData α).fbIndex
                = (processWindow ops fftRe fftIm cd).1.fbIndex from rfl,
              show ({ (processWindow ops fftRe fftIm cd).1 with
                startIndex := (processWindow ops fftRe fftIm cd).1.startIndex + stepSize } :
                  CallbackData α).startIndex
                = (processWindow ops fftRe fftIm cd).1.startIndex + stepSize from rfl,
              processWindow_fbIndex, processWindow_startIndex]
          apply ih
          · rw [hstep, stepSize_eq]
            rw [stepSize_eq] at h
            simp only [specRes] at hc
            omega
          · rw [hstep, stepSize_eq]
            rw [stepSize_eq] at h'
            simp only [specRes] at hc
            omega
        · rw [if_neg hcont, if_neg hcont]
    · cases fuel' with
      | zero => simp only [windowLoopF, if_neg hc]
      | succ m => simp only [windowLoopF, if_neg hc]

/-! ## Interleaving model of the fingerprint lock (C4)

The fingerprint vector is the one cross-thread shared buffer.  The producer
critical section is lines 153-171: under pthread_mutex_lock,
spectrogram->getSummary(cd->fingerprint) overwrites the shared fingerprint
elementwise with the new summary; the consumer critical section is lines
397-399: under the same mutex, memcpy reads the fpLength floats out.  The
model makes every elementwise access a separate atomic step, so tearing
would be expressible, and makes lock acquisition enabled only when the lock
is free, which is the pthread mutex semantics.  Thread id none is the
producer; readers are indexed by ℕ (any number of concurrent snapshot
calls).  A pc of 0 is before lock, 1 + i means holding the lock with i
elements written or read, fpLength + 2 is after unlock. -/

structure RWState (α : Type) where
  lockOwner : Option (Option ℕ)
  fp : ℤ → α
  prodPc : ℕ
  readerPc : ℕ → ℕ
  readerBuf : ℕ → ℤ → α

inductive RWStep {α : Type} (newv : ℤ → α) : RWState α → RWState α → Prop where
  | prodLock (s : RWState α) (h1 : s.lockOwner = none) (h2 : s.prodPc = 0) :
      RWStep newv s { s with lockOwner := some none, prodPc := 1 }
  | prodWrite (s : RWState α) (i : ℕ) (h1 : s.prodPc = i + 1) (h2 : i < fpLength) :
      RWStep newv s
        { s with
          fp := fun j => if j = (i : ℤ) then newv (i : ℤ) else s.fp j
          prodPc := i + 2 }
  | prodUnlock (s : RWState α) (h1 : s.prodPc = fpLength + 1)
      (h2 : s.lockOwner = some none) :
      RWStep newv s { s with lockOwner := none, prodPc := fpLength + 2 }
  | readerLock (s : RWState α) (r : ℕ) (h1 : s.lockOwner = none)
      (h2 : s.readerPc r = 0) :
      RWStep newv s
        { s with lockOwner := some (some r)
                 readerPc := Function.update s.readerPc r 1 }
  | readerRead (s : RWState α) (r i : ℕ) (h1 : s.readerPc r = i + 1)
      (h2 : i < fpLength) :
      RWStep newv s
        { s with
          readerBuf := Function.update s.readerBuf r
            (fun j => if j = (i : ℤ) then s.fp (i : ℤ) else s.readerBuf r j)
          readerPc := Function.update s.readerPc r (i + 2) }
  | readerUnlock (s : RWState α) (r : ℕ) (h1 : s.readerPc r = fpLength + 1)
      (h2 : s.lockOwner = some (some r)) :
      RWStep newv s
        { s with lockOwner := none
                 readerPc := Function.update s.readerPc r (fpLength + 2) }

/-- Initial state: fingerprint holds the prior vector, no thread holds the
lock, nothing has started; reader-local output buffers are arbitrary. -/
def RWInit {α : Type} (oldv : ℤ → α) (bufs : ℕ → ℤ → α) : RWState α :=
  { lockOwner := none, fp := oldv, prodPc := 0, readerPc := fun _ => 0, readerBuf := bufs }

/-- Number of elements the producer has written at a given pc. -/
def wCnt (pc : ℕ) : ℕ := min (pc - 1) fpLength

/-- The inductive invariant: lock ownership matches the program counters,
the shared fingerprint is new on the written prefix and old past it, a
reader inside its critical section has copied a consistent prefix (the
producer is then entirely before or entirely after its own critical
section), and a finished reader holds one complete vector. -/
structure RWInv {α : Type} (oldv newv : ℤ → α) (s : RWState α) : Prop where
  prodLe : s.prodPc ≤ fpLength + 2
  lockProd : s.lockOwner = some none ↔ (1 ≤ s.prodPc ∧ s.prodPc ≤ fpLength + 1)
  readerLe : ∀ r, s.readerPc r ≤ fpLength + 2
  lockReader : ∀ r, 1 ≤ s.readerPc r → s.readerPc r ≤ fpLength + 1 →
      s.lockOwner = some (some r)
  fpInv : ∀ j : ℤ, 0 ≤ j → j < (fpLength : ℤ) →
      s.fp j = if j < (wCnt s.prodPc : ℤ) then newv j else oldv j
  midReader : ∀ r, 1 ≤ s.readerPc r → s.readerPc r ≤ fpLength + 1 →
      (s.prodPc = 0 ∧ ∀ j : ℤ, 0 ≤ j → j < ((s.readerPc r - 1 : ℕ) : ℤ) →
        s.readerBuf r j = oldv j) ∨
      (s.prodPc = fpLength + 2 ∧ ∀ j : ℤ, 0 ≤ j → j < ((s.readerPc r - 1 : ℕ) : ℤ) →
        s.readerBuf r j = newv j)
  doneReader : ∀ r, s.readerPc r = fpLength + 2 →
      (∀ j : ℤ, 0 ≤ j → j < (fpLength : ℤ) → s.readerBuf r j = oldv j) ∨
      (∀ j : ℤ, 0 ≤ j → j < (fpLength : ℤ) → s.readerBuf r j = newv j)

theorem RWInv_step {α : Type} (oldv newv : ℤ → α) (s t : RWState α)
    (hs : RWInv oldv newv s) (st : RWStep newv s t) : RWInv oldv newv t := by
  cases st with
  | prodLock h1 h2 =>
    refine ⟨?_, ?_, ?_, ?_, ?_, ?_, ?_⟩ <;> (try dsimp only)
    · omega
    · constructor
      · intro _
        omega
      · intro _
        rfl
    · exact hs.readerLe
    · intro r hr1 hr2
      have := hs.lockReader r hr1 hr2
      rw [h1] at this
      exact absurd this (by simp)
    · intro j hj1 hj2
      have := hs.fpInv j hj1 hj2
      rw [this, h2]
      rfl
    · intro r hr1 hr2
      have := hs.lockReader r hr1 hr2
      rw [h1] at this
      exact absurd this (by simp)
    · exact hs.doneReader
  | prodWrite i h1 h2 =>
    have hlo : s.lockOwner = some none := hs.lockProd.mpr ⟨by omega, by omega⟩
    refine ⟨?_, ?_, ?_, ?_, ?_, ?_, ?_⟩ <;> (try dsimp only)
    · omega
    · rw [hlo]
      simp only [true_iff]
      omega
    · exact hs.readerLe
    · intro r hr1 hr2
      have := hs.lockReader r hr1 hr2
      rw [hlo] at this
      exact absurd this (by simp)
    · intro j hj1 hj2
      have hfp := hs.fpInv j hj1 hj2
      rw [h1] at hfp
      rw [show wCnt (i + 1) = i from by unfold wCnt; omega] at hfp
      rw [show wCnt (i + 2) = i + 1 from by unfold wCnt; omega]
      by_cases hji : j = (i : ℤ)
      · rw [if_pos hji, if_pos (by push_cast; omega), hji]
      · rw [if_neg hji, hfp]
        have hji2 : j ≠ (i : ℤ) := hji
        split_ifs with hA hB hB
        · rfl
        · exfalso
          push_cast at hA hB
          omega
        · exfalso
          push_cast at hA hB hji2
          omega
        · rfl
    · intro r hr1 hr2
      have := hs.lockReader r hr1 hr2
      rw [hlo] at this
      exact absurd this (by simp)
    · exact hs.doneReader
  | prodUnlock h1 h2 =>
    refine ⟨?_, ?_, ?_, ?_, ?_, ?_, ?_⟩ <;> (try dsimp only)
    · omega
    · constructor
      · intro hx
        exact absurd hx (by simp)
      · intro hx
        omega
    · exact hs.readerLe
    · intro r hr1 hr2
      have := hs.lockReader r hr1 hr2
      rw [h2] at this
      exact absurd this (by simp)
    · intro j hj1 hj2
      have hfp := hs.fpInv j hj1 hj2
      rw [h1] at hfp
      rw [show wCnt (fpLength + 2) = fpLength from by unfold wCnt; omega]
      rw [show wCnt (fpLength + 1) = fpLength from by unfold wCnt; omega] at hfp
      exact hfp
    · intro r hr1 hr2
      have := hs.lockReader r hr1 hr2
      rw [h2] at this
      exact absurd this (by simp)
    · exact hs.doneReader
  | readerLock r h1 h2 =>
    have hnp : ¬ (1 ≤ s.prodPc ∧ s.prodPc ≤ fpLength + 1) := by
      rw [← hs.lockProd, h1]
      simp
    refine ⟨hs.prodLe, ?_, ?_, ?_, hs.fpInv, ?_, ?_⟩ <;> (try dsimp only)
    · constructor
      · intro hx
        exact absurd hx (by simp)
      · intro hx
        exact absurd hx hnp
    · intro r'
      by_cases hr : r' = r
      · subst hr
        rw [Function.update_same]
        omega
      · rw [Function.update_noteq hr]
        exact hs.readerLe r'
    · intro r' hr1 hr2
      by_cases hr : r' = r
      · subst hr
        rfl
      · rw [Function.update_noteq hr] at hr1 hr2
        have := hs.lockReader r' hr1 hr2
        rw [h1] at this
        exact absurd this (by simp)
    · intro r' hr1 hr2
      by_cases hr : r' = r
      · subst hr
        have hp : s.prodPc = 0 ∨ s.prodPc = fpLength + 2 := by
          have := hs.prodLe
          omega
        rw [Function.update_same]
        rcases hp with hp | hp
        · exact Or.inl ⟨hp, by intro j hj1 hj2; simp at hj2; omega⟩
        · exact Or.inr ⟨hp, by intro j hj1 hj2; simp at hj2; omega⟩
      · rw [Function.update_noteq hr] at hr1 hr2
        have := hs.lockReader r' hr1 hr2
        rw [h1] at this
        exact absurd this (by simp)
    · intro r' hr'
      by_cases hr : r' = r
      · subst hr
        rw [Function.update_same] at hr'
        omega
      · rw [Function.update_noteq hr] at hr'
        exact hs.doneReader r' hr'
  | readerRead r i h1 h2 =>
    have hlo : s.lockOwner = some (some r) :=
      hs.lockReader r (by omega) (by omega)
    have hmid := hs.midReader r (by omega) (by omega)
    rw [h1] at hmid
    refine ⟨hs.prodLe, hs.lockProd, ?_, ?_, hs.fpInv, ?_, ?_⟩ <;> (try dsimp only)
    · intro r'
      by_cases hr : r' = r
      · subst hr
        rw [Function.update_same]
        omega
      · rw [Function.update_noteq hr]
        exact hs.readerLe r'
    · intro r' hr1 hr2
      by_cases hr : r' = r
      · subst hr
        exact hlo
      · rw [Function.update_noteq hr] at hr1 hr2
        exact hs.lockReader r' hr1 hr2
    · intro r' hr1 hr2
      by_cases hr : r' = r
      · subst hr
        simp only [Function.update_same]
        rw [Function.update_same] at hr1 hr2
        rcases hmid with ⟨hp, hpre⟩ | ⟨hp, hpre⟩
        · refine Or.inl ⟨hp, ?_⟩
          intro j hj1 hj2
          by_cases hji : j = (i : ℤ)
          · rw [if_pos hji, hji]
            have := hs.fpInv (i : ℤ) (by push_cast; omega) (by push_cast; omega)
            rw [this, hp]
            rw [show wCnt 0 = 0 from by unfold wCnt; omega]
            rw [if_neg (by push_cast; omega)]
          · rw [if_neg hji]
            refine hpre j hj1 ?_
            push_cast at hj2 ⊢
            omega
        · refine Or.inr ⟨hp, ?_⟩
          intro j hj1 hj2
          by_cases hji : j = (i : ℤ)
          · rw [if_pos hji, hji]
            have := hs.fpInv (i : ℤ) (by push_cast; omega) (by push_cast; omega)
            rw [this, hp]
            rw [show wCnt (fpLength + 2) = fpLength from by unfold wCnt; omega]
            rw [if_pos (by push_cast; omega)]
          · rw [if_neg hji]
            refine hpre j hj1 ?_
            push_cast at hj2 ⊢
            omega
      · rw [Function.update_noteq hr] at hr1 hr2 ⊢
        rw [Function.update_noteq hr]
        exact hs.midReader r' hr1 hr2
    · intro r' hr'
      by_cases hr : r' = r
      · subst hr
        rw [Function.update_same] at hr'
        omega
      · rw [Function.update_noteq hr] at hr'
        rw [Function.update_noteq hr]
        exact hs.doneReader r' hr'
  | readerUnlock r h1 h2 =>
    have hmid := hs.midReader r (by omega) (by omega)
    rw [h1] at hmid
    refine ⟨hs.prodLe, ?_, ?_, ?_, hs.fpInv, ?_, ?_⟩ <;> (try dsimp only)
    · have hnp : ¬ (1 ≤ s.prodPc ∧ s.prodPc ≤ fpLength + 1) := by
        rw [← hs.lockProd, h2]
        simp
      constructor
      · intro hx
        exact absurd hx (by simp)
      · intro hx
        exact absurd hx hnp
    · intro r'
      by_cases hr : r' = r
      · subst hr
        rw [Function.update_same]
      · rw [Function.update_noteq hr]
        exact hs.readerLe r'
    · intro r' hr1 hr2
      by_cases hr : r' = r
      · subst hr
        rw [Function.update_same] at hr1 hr2
        omega
      · rw [Function.update_noteq hr] at hr1 hr2
        have := hs.lockReader r' hr1 hr2
        rw [h2] at this
        have heq : r = r' := by
          simpa using this
        exact absurd heq.symm hr
    · intro r' hr1 hr2
      by_cases hr : r' = r
      · subst hr
        rw [Function.update_same] at hr1 hr2
        omega
      · rw [Function.update_noteq hr] at hr1 hr2
        have := hs.lockReader r' hr1 hr2
        rw [h2] at this
        have heq : r = r' := by
          simpa using this
        exact absurd heq.symm hr
    · intro r' hr'
      by_cases hr : r' = r
      · subst hr
        rcases hmid with ⟨_, hpre⟩ | ⟨_, hpre⟩
        · refine Or.inl ?_
          intro j hj1 hj2
          refine hpre j hj1 ?_
          push_cast
          omega
        · refine Or.inr ?_
          intro j hj1 hj2
          refine hpre j hj1 ?_
          push_cast
          omega
      · rw [Function.update_noteq hr] at hr'
        exact hs.doneReader r' hr'

/-- The invariant holds in every reachable state. -/
theorem RWInv_reach {α : Type} (oldv newv : ℤ → α) (bufs : ℕ → ℤ → α)
    (s : RWState α)
    (h : Relation.ReflTransGen (RWStep newv) (RWInit oldv bufs) s) :
    RWInv oldv newv s := by
  induction h with
  | refl =>
    refine ⟨?_, ?_, ?_, ?_, ?_, ?_, ?_⟩ <;> (try dsimp only [RWInit])
    · omega
    · constructor
      · intro hx
        exact absurd hx (by simp)
      · intro hx
        omega
    · intro r
      omega
    · intro r hr1 _
      omega
    · intro j hj1 hj2
      rw [show wCnt 0 = 0 from by unfold wCnt; omega]
      rw [if_neg (by push_cast; omega)]
    · intro r hr1 _
      omega
    · intro r hr
      omega
  | tail hsteps hstep ih =>
    exact RWInv_step oldv newv _ _ ih hstep

/-- Chain of readerRead steps: from inside the critical section with i
elements copied, a reader can always finish its remaining fpLength - i
reads, without the lock changing hands. -/
theorem rwReadChain {α : Type} (newv : ℤ → α) (r : ℕ) :
    ∀ (k : ℕ) (s : RWState α) (i : ℕ), s.readerPc r = i + 1 → i + k = fpLength →
    ∃ t, Relation.ReflTransGen (RWStep newv) s t ∧ t.readerPc r = fpLength + 1 ∧
      t.lockOwner = s.lockOwner := by
  intro k
  induction k with
  | zero =>
    intro s i h1 h2
    refine ⟨s, Relation.ReflTransGen.refl, ?_, rfl⟩
    rw [h1]
    omega
  | succ n ih =>
    intro s i h1 h2
    have hi : i < fpLength := by omega
    have hstep := @RWStep.readerRead _ newv s r i h1 hi
    obtain ⟨t, ht, hpc, hlo⟩ :=
      ih { s with
            readerBuf := Function.update s.readerBuf r
              (fun j => if j = (i : ℤ) then s.fp (i : ℤ) else s.readerBuf r j)
            readerPc := Function.update s.readerPc r (i + 2) }
        (i + 1) (by rw [show ({ s with
            readerBuf := Function.update s.readerBuf r
              (fun j => if j = (i : ℤ) then s.fp (i : ℤ) else s.readerBuf r j)
            readerPc := Function.update s.readerPc r (i + 2) } : RWState α).readerPc
              = Function.update s.readerPc r (i + 2) from rfl, Function.update_same])
        (by omega)
    exact ⟨t, Relation.ReflTransGen.head hstep ht, hpc, hlo⟩

/-- Concrete instances for the lock-model witness. -/
def rwOld : ℤ → ℤ := fun _ => 0

def rwNew : ℤ → ℤ := fun _ => 1

def rwBufs : ℕ → ℤ → ℤ := fun _ _ => 0

/-! ## Concrete states for counterexamples and witnesses -/

/-- Arbitrary memory contents standing for freshly allocated buffers. -/
def zMem : CallbackData ℤ where
  fingerprint := fun _ => 7
  spectrogram := { bins := fun _ => [], freqBins := 0, timeBins := 0 }
  acc := fun _ => 7
  accCount := 99
  frameBuffer := fun _ => 7
  fbIndex := 5
  startIndex := 5
  fbLen := 3
  A := fun _ => 7
  hamm := fun _ => 2
  complRe := fun _ => 7
  complIm := fun _ => 7
  lockHeld := true
  nanExited := true
  winTrace := [9]
  emitTrace := []

/-- A trivial stand-in transform for concrete runs. -/
def fzz : (ℤ → ℤ) → (ℤ → ℤ) → ℤ → ℤ := fun _ _ _ => 0

/-- A trivial stand-in transform over FV. -/
def fvz : (ℤ → FV) → (ℤ → FV) → ℤ → FV := fun _ _ _ => FV.fin 0

/-- A mid-run callback state over exact integers: lock free, buffer as
initialized at setup. -/
def zcd : CallbackData ℤ :=
  { zMem with
    lockHeld := false
    nanExited := false
    fbIndex := 0
    startIndex := 0
    fbLen := fbLen0
    accCount := 0
    winTrace := []
    emitTrace := [] }

/-- State for the frame-shift counterexample: the buffer holds its own
index as sample value, the write cursor is near capacity, and a tail of
unconsumed samples lies in the second half. -/
def c1cd : CallbackData ℤ :=
  { zcd with
    frameBuffer := fun i => i
    fbIndex := 22000
    startIndex := 21000 }

/-- An FV callback state one window short of an accumulation cycle, with
enough buffered data for two analysis windows; the first accumulator bin
is negative, so the dB conversion of the completed cycle yields NaN there
(as float vDSP_vdbcon does). -/
def fvMem : CallbackData FV where
  fingerprint := fun _ => FV.fin 0
  spectrogram := { bins := fun _ => [], freqBins := fpLength, timeBins := historyCount }
  acc := fun i => if i = 0 then FV.fin (-20) else FV.fin 0
  accCount := 9
  frameBuffer := fun _ => FV.fin 0
  fbIndex := 1463
  startIndex := 0
  fbLen := fbLen0
  A := fun _ => FV.fin 0
  hamm := fun _ => FV.fin 1
  complRe := fun _ => FV.fin 0
  complIm := fun _ => FV.fin 0
  lockHeld := false
  nanExited := false
  winTrace := []
  emitTrace := []

/-- A freshly constructed Fingerprinter (start has not been called). -/
def fpIdle : FingerprinterState ℤ := mkFingerprinter IntOps zMem

/-- The state right after the first successful startRecording. -/
def fpRun : FingerprinterState ℤ := { fpIdle with unitIsRunning := true }

/-- A caller-supplied snapshot output buffer. -/
def zBuf : ℤ → ℤ := fun _ => 3

/-- A small Fingerprinter state for the zcd8 window run: one full window
buffered, accumulation far from complete. -/
def zcd8 : CallbackData ℤ := { zcd with fbIndex := 1024 }

/-! ## Claim theorems -/

/-- C1 (code bug): at a concrete state on the shift path (fbIndex at least
fbLen - n with n = 100), the compaction of lines 108-114 decrements both
cursors by fbLen/2 = 11025, but the memcpy copies the first half of the
buffer over the second half, so the front of the buffer keeps the stale
old samples (position 21000 - 11025 still holds sample 9975, not the
unconsumed sample 21000 the claim says is shifted there) and the second
half becomes a copy of the first half. -/
theorem c1_shiftCompact_code_bug :
    ((c1cd.fbLen : ℤ) - 100 ≤ c1cd.fbIndex) ∧
    (shiftCompact c1cd).fbIndex = c1cd.fbIndex - 11025 ∧
    (shiftCompact c1cd).startIndex = c1cd.startIndex - 11025 ∧
    c1cd.frameBuffer 21000 = 21000 ∧
    (shiftCompact c1cd).frameBuffer (21000 - 11025) = 9975 ∧
    ¬ (shiftCompact c1cd).frameBuffer (21000 - 11025) = c1cd.frameBuffer 21000 ∧
    (shiftCompact c1cd).frameBuffer (11025 + 3) = c1cd.frameBuffer 3 ∧
    (callback IntOps fzz fzz c1cd false 100 (fun _ => 0)).1.frameBuffer (21000 - 11025)
      = 9975 ∧
    ¬ (callback IntOps fzz fzz c1cd false 100 (fun _ => 0)).1.frameBuffer (21000 - 11025)
      = c1cd.frameBuffer 21000 := by
  decide

/-- C2 (counterexample): at a concrete state where the dB-converted first
accumulator entry is NaN, the callback discards the cycle but does not
reset the counter: after the NaN cycle the counter is accumulationNum,
not inside [0, accumulationNum). -/
theorem c2_nan_counter_not_reset_cex :
    (processWindow FVOpsNan fvz fvz fvMem).1.accCount = 10 ∧
    ¬ (processWindow FVOpsNan fvz fvz fvMem).1.accCount < (accumulationNum : ℤ) := by
  decide

/-- C2 (amended): when the counter reaches accumulationNum and the
validity guard detects NaN, the callback unlocks and returns immediately:
the spectrogram is not updated, the fingerprint and emission trace are
untouched, but the counter keeps the incremented value accCount + 1 and
the accumulator keeps the dB-converted values instead of being reset. -/
theorem c2_nan_discard_without_reset {α : Type} (ops : FloatOps α)
    (fftRe fftIm : (ℤ → α) → (ℤ → α) → ℤ → α) (cd : CallbackData α)
    (hcnt : (accumulationNum : ℤ) ≤ cd.accCount + 1)
    (hnan : nanDetected ops fftRe fftIm cd = true) :
    processWindow ops fftRe fftIm cd
      = ({ cd with
            A := windowPower ops fftRe fftIm cd
            complRe := windowRe2 ops fftRe fftIm cd
            complIm := windowIm2 ops fftRe fftIm cd
            acc := accDbFun ops fftRe fftIm cd
            accCount := cd.accCount + 1
            winTrace := cd.winTrace ++ [cd.startIndex]
            lockHeld := false
            nanExited := true }, false) := by
  simp only [processWindow]
  rw [if_pos hcnt, if_pos hnan]

theorem c2_nan_discard_without_reset_witness :
    processWindow FVOpsNan fvz fvz fvMem
      = ({ fvMem with
            A := windowPower FVOpsNan fvz fvz fvMem
            complRe := windowRe2 FVOpsNan fvz fvz fvMem
            complIm := windowIm2 FVOpsNan fvz fvz fvMem
            acc := accDbFun FVOpsNan fvz fvz fvMem
            accCount := fvMem.accCount + 1
            winTrace := fvMem.winTrace ++ [fvMem.startIndex]
            lockHeld := false
            nanExited := true }, false) :=
  c2_nan_discard_without_reset FVOpsNan fvz fvz fvMem (by decide) (by decide)

/-- C3 (code bug): getFingerprint returns failure before startRecording
is ever called, but immediately after a successful startRecording - with
no audio callback run, no window analyzed and no accumulation cycle
completed (empty traces, zero counter) - it already returns success,
copying the all-zero initial fingerprint; the code marks this with a TODO
at line 396. -/
theorem c3_snapshot_success_without_cycle :
    (getFingerprint fpIdle zBuf).1 = false ∧
    startRecording fpIdle false false true = Except.ok (true, fpRun) ∧
    fpRun.cd.emitTrace = [] ∧ fpRun.cd.winTrace = [] ∧ fpRun.cd.accCount = 0 ∧
    (getFingerprint fpRun zBuf).1 = true :=
  ⟨rfl, rfl, rfl, rfl, rfl, rfl⟩

/-- C4: in the interleaving model of the fingerprint lock, any schedule of
one producer writing the new fingerprint elementwise inside its critical
section and any number of readers copying it out inside theirs ends every
completed reader with either the complete prior vector or the complete
new one, never a mixture. -/
theorem c4_snapshot_atomic {α : Type} (oldv newv : ℤ → α) (bufs : ℕ → ℤ → α)
    (s : RWState α)
    (h : Relation.ReflTransGen (RWStep newv) (RWInit oldv bufs) s) (r : ℕ)
    (hr : s.readerPc r = fpLength + 2) :
    (∀ j : ℤ, 0 ≤ j → j < (fpLength : ℤ) → s.readerBuf r j = oldv j) ∨
    (∀ j : ℤ, 0 ≤ j → j < (fpLength : ℤ) → s.readerBuf r j = newv j) :=
  (RWInv_reach oldv newv bufs s h).doneReader r hr

theorem c4_snapshot_atomic_witness :
    ∃ s : RWState ℤ,
      Relation.ReflTransGen (RWStep rwNew) (RWInit rwOld rwBufs) s ∧
      s.readerPc 0 = fpLength + 2 ∧
      ((∀ j : ℤ, 0 ≤ j → j < (fpLength : ℤ) → s.readerBuf 0 j = rwOld j) ∨
       (∀ j : ℤ, 0 ≤ j → j < (fpLength : ℤ) → s.readerBuf 0 j = rwNew j)) := by
  have st1 := @RWStep.readerLock ℤ rwNew (RWInit rwOld rwBufs) 0 rfl rfl
  obtain ⟨t, ht, hpc, hlo⟩ :=
    rwReadChain rwNew 0 fpLength
      { RWInit rwOld rwBufs with
        lockOwner := some (some 0)
        readerPc := Function.update (RWInit rwOld rwBufs).readerPc 0 1 }
      0
      (by
        show Function.update (RWInit rwOld rwBufs).readerPc 0 1 0 = 0 + 1
        rw [Function.update_same])
      (by omega)
  have st3 := @RWStep.readerUnlock ℤ rwNew t 0 hpc (by rw [hlo])
  refine ⟨_, Relation.ReflTransGen.tail (Relation.ReflTransGen.head st1 ht) st3,
    ?_, ?_⟩
  · show Function.update t.readerPc 0 (fpLength + 2) 0 = fpLength + 2
    rw [Function.update_same]
  · exact c4_snapshot_atomic rwOld rwNew rwBufs _
      (Relation.ReflTransGen.tail (Relation.ReflTransGen.head st1 ht) st3) 0
      (by
        show Function.update t.readerPc 0 (fpLength + 2) 0 = fpLength + 2
        rw [Function.update_same])

/-- C6: while idle, getFingerprint returns failure leaving the caller
buffer untouched; while running it returns success with the buffer holding
the stored fingerprint on the first fpLength entries and its old contents
elsewhere. -/
theorem c6_snapshot_contract {α : Type} (s : FingerprinterState α) (outBuf : ℤ → α) :
    (s.unitIsRunning = false → getFingerprint s outBuf = (false, outBuf)) ∧
    (s.unitIsRunning = true → getFingerprint s outBuf
      = (true, fun i => if 0 ≤ i ∧ i < (fpLength : ℤ) then s.cd.fingerprint i
          else outBuf i)) := by
  constructor
  · intro h
    simp [getFingerprint, h]
  · intro h
    simp [getFingerprint, h]

theorem c6_snapshot_contract_witness :
    getFingerprint fpIdle zBuf = (false, zBuf) ∧
    getFingerprint fpRun zBuf
      = (true, fun i => if 0 ≤ i ∧ i < (fpLength : ℤ) then fpRun.cd.fingerprint i
          else zBuf i) :=
  ⟨(c6_snapshot_contract fpIdle zBuf).1 rfl, (c6_snapshot_contract fpRun zBuf).2 rfl⟩

/-- C7: startRecording while already running and stopRecording while idle
are no-ops returning the current running state, and a start from idle
reports success only when the queried kAudioOutputUnitProperty_IsRunning
value was nonzero. -/
theorem c7_start_stop_idempotent {α : Type} (s : FingerprinterState α)
    (a b c d : Bool) :
    (s.unitIsRunning = true → startRecording s a b c = Except.ok (true, s)) ∧
    (s.unitIsRunning = false → stopRecording s d = Except.ok (false, s)) ∧
    (∀ t : FingerprinterState α, startRecording s a b c = Except.ok (true, t) →
      t.unitIsRunning = true ∧ (s.unitIsRunning = false → c = true)) := by
  refine ⟨?_, ?_, ?_⟩
  · intro h
    simp [startRecording, h]
  · intro h
    simp [stopRecording, h]
  · intro t ht
    by_cases h : s.unitIsRunning = true
    · rw [startRecording, if_pos h] at ht
      have hts : s = t := by
        simpa using ht
      refine ⟨by rw [← hts]; exact h, ?_⟩
      intro hfalse
      exact absurd (h.symm.trans hfalse) (by simp)
    · rw [startRecording, if_neg h] at ht
      split_ifs at ht with h1 h2 h3
      · have hts : ({ s with unitIsRunning := true } : FingerprinterState α) = t := by
          simpa using ht
        refine ⟨by rw [← hts], fun _ => h3⟩
      · simp at ht

theorem c7_start_stop_idempotent_witness :
    startRecording fpRun false false false = Except.ok (true, fpRun) ∧
    stopRecording fpIdle true = Except.ok (false, fpIdle) ∧
    (fpRun.unitIsRunning = true ∧ (fpIdle.unitIsRunning = false → true = true)) :=
  ⟨(c7_start_stop_idempotent fpRun false false false true).1 rfl,
   (c7_start_stop_idempotent fpIdle false false false true).2.1 rfl,
   (c7_start_stop_idempotent fpIdle false false true true).2.2 fpRun rfl⟩

/-- C8 (counterexample): with enough buffered data for the two windows at
0 and 441 but a NaN emission on the first, the callback stops after the
window at 0 without advancing startIndex, so it does not process exactly
the windows with start position at most fbIndex - specRes. -/
theorem c8_nan_skips_windows_cex :
    (callback FVOpsNan fvz fvz fvMem false 2 (fun _ => FV.fin 0)).1.winTrace = [0] ∧
    (callback FVOpsNan fvz fvz fvMem false 2 (fun _ => FV.fin 0)).1.startIndex = 0 ∧
    fvMem.fbIndex + 2 - (specRes : ℤ) = 441 ∧
    ¬ (callback FVOpsNan fvz fvz fvMem false 2 (fun _ => FV.fin 0)).1.winTrace
        = [(0 : ℤ), 441] := by
  decide

/-- C8 (amended): the hop is 441 = floor(windowOffset * sampleRate); when
no emission yields NaN the loop processes exactly the windows at
startIndex, startIndex + 441, ... up to fbIndex - specRes, advancing
startIndex by the hop after each; on a NaN emission the callback returns
with startIndex still at the NaN window (a position not past
fbIndex - specRes), having processed exactly the windows up to it; each
window is multiplied elementwise by the stored window function before the
transform, and only the first fpLength power bins are accumulated. -/
theorem c8_window_enumeration {α : Type} (ops : FloatOps α)
    (fftRe fftIm : (ℤ → α) → (ℤ → α) → ℤ → α) (cd : CallbackData α)
    (hn : cd.nanExited = false) :
    (stepSizeSrc = 441 ∧ stepSize = 441) ∧
    (windowLoop ops fftRe fftIm cd).fbIndex = cd.fbIndex ∧
    ((windowLoop ops fftRe fftIm cd).nanExited = false →
      (windowLoop ops fftRe fftIm cd).winTrace
        = cd.winTrace ++ posArr cd.startIndex (cd.fbIndex - (specRes : ℤ)) ∧
      (windowLoop ops fftRe fftIm cd).startIndex
        = cd.startIndex
          + (posCount cd.startIndex (cd.fbIndex - (specRes : ℤ)) : ℤ) * stepSize ∧
      ¬ (windowLoop ops fftRe fftIm cd).startIndex ≤ cd.fbIndex - (specRes : ℤ)) ∧
    ((windowLoop ops fftRe fftIm cd).nanExited = true →
      cd.startIndex ≤ (windowLoop ops fftRe fftIm cd).startIndex ∧
      (windowLoop ops fftRe fftIm cd).startIndex ≤ cd.fbIndex - (specRes : ℤ) ∧
      (windowLoop ops fftRe fftIm cd).winTrace
        = cd.winTrace ++ posArr cd.startIndex (windowLoop ops fftRe fftIm cd).startIndex) ∧
    (∀ i : ℤ, ¬ (0 ≤ i ∧ i < (fpLength : ℤ)) →
      accPlus ops fftRe fftIm cd i = cd.acc i) ∧
    (∀ i : ℤ, 0 ≤ i → i < (fpLength : ℤ) →
      accPlus ops fftRe fftIm cd i
        = ops.add (windowPower ops fftRe fftIm cd i) (cd.acc i)) := by
  obtain ⟨hfb, hok, hna⟩ := windowLoopF_spec ops fftRe fftIm _ cd le_rfl hn
  refine ⟨⟨stepSizeSrc_eq, rfl⟩, hfb, hok, hna, ?_, ?_⟩
  · intro i hi
    simp only [accPlus, if_neg hi]
  · intro i h1 h2
    simp only [accPlus, if_pos (And.intro h1 h2)]

theorem c8_window_enumeration_witness :
    (windowLoop IntOps fzz fzz zcd8).winTrace
        = zcd8.winTrace ++ posArr zcd8.startIndex (zcd8.fbIndex - (specRes : ℤ)) ∧
    ¬ (windowLoop IntOps fzz fzz zcd8).startIndex ≤ zcd8.fbIndex - (specRes : ℤ) :=
  ⟨((c8_window_enumeration IntOps fzz fzz zcd8 rfl).2.2.1 (by decide)).1,
   ((c8_window_enumeration IntOps fzz fzz zcd8 rfl).2.2.1 (by decide)).2.2⟩

/-- C10: on every execution path through the callback - render failure,
insufficient data, normal window processing, NaN early return - the
fingerprint mutex is back to free when the callback returns, provided it
was free on entry. -/
theorem c10_callback_releases_lock {α : Type} (ops : FloatOps α)
    (fftRe fftIm : (ℤ → α) → (ℤ → α) → ℤ → α) (cd : CallbackData α)
    (renderFails : Bool) (n : ℕ) (samples : ℤ → α)
    (h : cd.lockHeld = false) :
    (callback ops fftRe fftIm cd renderFails n samples).1.lockHeld = false := by
  simp only [callback, windowLoop]
  split_ifs
  · exact h
  · exact h
  · exact windowLoopF_lockHeld ops fftRe fftIm _ _ h
  · exact h
  · exact windowLoopF_lockHeld ops fftRe fftIm _ _ h

theorem c10_callback_releases_lock_witness :
    (callback IntOps fzz fzz zcd false 4 (fun _ => 1)).1.lockHeld = false :=
  c10_callback_releases_lock IntOps fzz fzz zcd false 4 (fun _ => 1) rfl

/-! ## Real-valued semantics of the dB conversion (C5) -/

/-- Model of vDSP_vdbcon with the power flag (from the vDSP documentation):
D[n] = 10 * log10(A[n] / reference), over the reals.  NaN inputs do not
arise over ℝ, where the validity guard always passes; the guard behaviour
on NaN is covered by the FV instantiation. -/
noncomputable def vdbconPower (ref x : ℝ) : ℝ := 10 * Real.logb 10 (x / ref)

/-- Real-number instantiation of the scalar operations (noncomputable
because real comparison and logarithm are). -/
noncomputable def RealOps : FloatOps ℝ where
  zero := 0
  ofNat := fun n => (n : ℝ)
  add := fun a b => a + b
  mul := fun a b => a * b
  le := fun a b => decide (a ≤ b)
  ge := fun a b => decide (b ≤ a)
  db := vdbconPower

/-- Over the reals every value compares with 0, so the NaN guard passes. -/
theorem realGuardPasses (fftRe fftIm : (ℤ → ℝ) → (ℤ → ℝ) → ℤ → ℝ)
    (cd : CallbackData ℝ) : nanDetected RealOps fftRe fftIm cd = false := by
  unfold nanDetected
  rcases le_total (0 : ℝ) (accDbFun RealOps fftRe fftIm cd 0) with h | h
  · simp [RealOps, h]
    exact fun hv => hv.le
  · simp [RealOps, h]
    exact fun hv => hv.le

/-- C5: for every scalar instantiation, when the counter reaches
accumulationNum and the guard passes, the dB-converted accumulator is
appended to the emission trace and pushed into the spectrogram, the first
fpLength accumulator entries are reset to zero and the counter to zero;
and over the reals the emitted value is elementwise
10 * log10(sum / accumulationNum) of the post-addition running sum, i.e.
dB (power convention) of the average. -/
theorem c5_emission_db_average_reset :
    (∀ (α : Type) (ops : FloatOps α) (fftRe fftIm : (ℤ → α) → (ℤ → α) → ℤ → α)
        (cd : CallbackData α),
      (accumulationNum : ℤ) ≤ cd.accCount + 1 →
      nanDetected ops fftRe fftIm cd = false →
      (processWindow ops fftRe fftIm cd).1.emitTrace
          = cd.emitTrace ++ [accDbFun ops fftRe fftIm cd] ∧
      (processWindow ops fftRe fftIm cd).1.spectrogram
          = spectrogramUpdate cd.spectrogram (accDbFun ops fftRe fftIm cd) ∧
      (∀ i : ℤ, 0 ≤ i → i < (fpLength : ℤ) →
        (processWindow ops fftRe fftIm cd).1.acc i = ops.zero) ∧
      (processWindow ops fftRe fftIm cd).1.accCount = 0 ∧
      (processWindow ops fftRe fftIm cd).2 = true) ∧
    (∀ (fftRe fftIm : (ℤ → ℝ) → (ℤ → ℝ) → ℤ → ℝ) (cd : CallbackData ℝ) (i : ℤ),
      0 ≤ i → i < (fpLength : ℤ) →
      accDbFun RealOps fftRe fftIm cd i
        = 10 * Real.logb 10
            (accPlus RealOps fftRe fftIm cd i / (accumulationNum : ℝ))) := by
  constructor
  · intro α ops fftRe fftIm cd hcnt hnoNan
    simp only [processWindow]
    rw [if_pos hcnt, if_neg (by simp [hnoNan] : ¬ nanDetected ops fftRe fftIm cd = true)]
    refine ⟨rfl, rfl, ?_, rfl, rfl⟩
    intro i h1 h2
    exact if_pos ⟨h1, h2⟩
  · intro fftRe fftIm cd i h1 h2
    simp only [accDbFun]
    rw [if_pos ⟨h1, h2⟩]
    rfl

/-- A concrete real-valued state one window short of an emission. -/
noncomputable def rcd : CallbackData ℝ where
  fingerprint := fun _ => 0
  spectrogram := { bins := fun _ => [], freqBins := fpLength, timeBins := historyCount }
  acc := fun _ => 10
  accCount := 9
  frameBuffer := fun _ => 0
  fbIndex := 0
  startIndex := 0
  fbLen := fbLen0
  A := fun _ => 0
  hamm := fun _ => 0
  complRe := fun _ => 0
  complIm := fun _ => 0
  lockHeld := false
  nanExited := false
  winTrace := []
  emitTrace := []

/-- A trivial stand-in transform over ℝ. -/
noncomputable def rfz : (ℤ → ℝ) → (ℤ → ℝ) → ℤ → ℝ := fun _ _ _ => 0

theorem c5_emission_db_average_reset_witness :
    ((processWindow RealOps rfz rfz rcd).1.emitTrace
        = rcd.emitTrace ++ [accDbFun RealOps rfz rfz rcd] ∧
      (processWindow RealOps rfz rfz rcd).1.spectrogram
        = spectrogramUpdate rcd.spectrogram (accDbFun RealOps rfz rfz rcd) ∧
      (∀ i : ℤ, 0 ≤ i → i < (fpLength : ℤ) →
        (processWindow RealOps rfz rfz rcd).1.acc i = RealOps.zero) ∧
      (processWindow RealOps rfz rfz rcd).1.accCount = 0 ∧
      (processWindow RealOps rfz rfz rcd).2 = true) ∧
    accDbFun RealOps rfz rfz rcd 0
      = 10 * Real.logb 10 (accPlus RealOps rfz rfz rcd 0 / (accumulationNum : ℝ)) :=
  ⟨(c5_emission_db_average_reset.1 ℝ RealOps rfz rfz rcd (by decide)
      (realGuardPasses rfz rfz rcd)),
   c5_emission_db_average_reset.2 rfz rfz rcd 0 (by decide) (by decide)⟩

/-- C9: the derived constants computed by lines 33 and 35 of the source -
fpLength via binary32/binary64 rounding and unsigned truncation, and
historyCount via the left-associated expression
historyTime / accumulationNum / windowOffset with unsigned division first -
evaluate exactly to 325 and 100, the values of the spec formulas
specRes * freqCutoff / (sampleRate / 2) and
historyTime / (accumulationNum * windowOffset) (the latter read with the
exact constant 1/100). -/
theorem c9_derived_constants :
    fpLengthSrc = 325 ∧ historyCountSrc = 100 ∧
    fpLength = fpLengthSrc ∧ historyCount = historyCountSrc ∧
    (specRes * 7000) / (sampleRate / 2) = 325 ∧
    ⌊(specRes : ℚ) * freqCutoff / ((sampleRate : ℚ) / 2)⌋ = 325 ∧
    (historyTime : ℚ) / ((accumulationNum : ℚ) * (1 / 100)) = 100 := by
  refine ⟨fpLengthSrc_eq, historyCountSrc_eq, ?_, ?_, ?_, ?_, ?_⟩
  · rw [fpLengthSrc_eq]
    rfl
  · rw [historyCountSrc_eq]
    rfl
  · decide
  · rw [show (specRes : ℚ) * freqCutoff / ((sampleRate : ℚ) / 2) = 7168000 / 22050 by
      norm_num [specRes, sampleRate, freqCutoff]]
    exact Int.floor_eq_iff.mpr (by norm_num)
  · norm_num [historyTime, accumulationNum]

end Batphone



